import Mathlib

/-!
Verification development for the QueueManagerBOG repository (`app.py`).

The repository is a Flask/Socket.IO dashboard over three SQL relations,
`agents(name PK)`, `status(agent_name PK/FK, backlog, active, priority)` and
`assignment(agent_name PK/FK, easy_to_handle, investigation, autoclose_tickets)`.
Below, the relations are shallowly embedded as Lean lists of rows, the SQL
statements issued by the handlers become pure list operations, and each
Socket.IO handler becomes a function from a database state and a payload to the
new database state together with the list of emitted events.
-/

namespace QueueManager

/-! ## String helpers mirroring the Python builtins used by `app.py` -/

/-- Left part of Python `str.strip()`: drop leading whitespace characters. -/
def trimL (l : List Char) : List Char := l.dropWhile Char.isWhitespace

/-- Right part of Python `str.strip()`: drop trailing whitespace characters. -/
def trimR (l : List Char) : List Char :=
  (l.reverse.dropWhile Char.isWhitespace).reverse

/-- Model of Python `str.strip()` (no arguments): remove leading and trailing
whitespace. Whitespace is modelled by `Char.isWhitespace`
(space, tab, carriage return, newline), which covers the characters that
occur in the payloads of this application. -/
def pyStrip (s : String) : String := ⟨trimR (trimL s.data)⟩

/-- Numeric value of a run of decimal digit characters. -/
def digitsVal (cs : List Char) : Nat :=
  cs.foldl (fun n c => 10 * n + (c.toNat - 48)) 0

/-- Model of Python `int(s)` on a string argument: strip surrounding
whitespace, allow one optional sign, then a nonempty run of decimal digits;
anything else raises (here: `none`). -/
def pyIntStr (s : String) : Option Int :=
  match (pyStrip s).data with
  | [] => none
  | c :: cs =>
    if c = '-' then
      if cs ≠ [] ∧ cs.all Char.isDigit then some (-(digitsVal cs : Int)) else none
    else if c = '+' then
      if cs ≠ [] ∧ cs.all Char.isDigit then some ((digitsVal cs : Int)) else none
    else if (c :: cs).all Char.isDigit then some ((digitsVal (c :: cs) : Int)) else none

/-- Model of Python `int(value)` where `value` is the (possibly absent)
payload value: `int(None)` raises a `TypeError` (here: `none`). -/
def pyInt : Option String → Option Int
  | none => none
  | some s => pyIntStr s

/-- Model of Python `str.upper()`: uppercase each character (ASCII case
mapping, which covers this application's inputs). Defined as a map over the
character list so that it evaluates by reduction. -/
def pyUpper (s : String) : String := ⟨s.data.map Char.toUpper⟩

/-! ## Data model: the three relations of `app.py` -/

/-- One row of the `status` relation. `priority` is a nullable column
(`Column("priority", String, nullable=True)`), hence an `Option`. -/
structure StatusRow where
  agent_name : String
  backlog : Int
  active : Int
  priority : Option String
deriving Repr, DecidableEq

/-- One row of the `assignment` relation. -/
structure AssignRow where
  agent_name : String
  easy_to_handle : Int
  investigation : Int
  autoclose_tickets : Int
deriving Repr, DecidableEq

/-- The persisted database: the contents of the three relations.
Rows are kept in insertion order, as a SQL table with no ORDER BY would
present them; primary-key uniqueness is a proved invariant, not baked in. -/
structure DB where
  agents : List String
  status : List StatusRow
  assignment : List AssignRow
deriving Repr, DecidableEq

/-- `DEFAULT_AGENTS = ["Victor", "Julio", "Felipe", "Cindy"]`. -/
def DEFAULT_AGENTS : List String := ["Victor", "Julio", "Felipe", "Cindy"]

/-- A zero-valued `status` row as inserted by `init_db` and by the
upsert in `on_update_cell`: `backlog=0, active=0, priority=None`. -/
def zeroStatus (a : String) : StatusRow := ⟨a, 0, 0, none⟩

/-- A zero-valued `assignment` row as inserted by `init_db` and by the
upsert in `on_update_cell`. -/
def zeroAssign (a : String) : AssignRow := ⟨a, 0, 0, 0⟩

/-- `init_db()`: `metadata.create_all` (pure schema work, no row content) and,
if the `agents` relation is empty, insert the four default agents each with a
zero-valued status row and a zero-valued assignment row. -/
def init_db (db : DB) : DB :=
  if db.agents.length = 0 then
    { agents := DEFAULT_AGENTS
      status := DEFAULT_AGENTS.map zeroStatus
      assignment := DEFAULT_AGENTS.map zeroAssign }
  else db

/-! ## Reading the full state -/

/-- Output row of the status query in `fetch_state`: it selects
`agents.c.name` and coalesces `priority` to `""`. -/
structure StatusOut where
  name : String
  backlog : Int
  active : Int
  priority : String
deriving Repr, DecidableEq

/-- Output row of the assignment query in `fetch_state`. -/
structure AssignOut where
  name : String
  easy_to_handle : Int
  investigation : Int
  autoclose_tickets : Int
deriving Repr, DecidableEq

/-- `ORDER BY agents.name`: sort the agent names ascending (lexicographic
string order models the database collation). -/
def sortNames (l : List String) : List String :=
  List.insertionSort (· ≤ ·) l

/-- The two SELECT ... JOIN ... ORDER BY queries of `fetch_state`: for each
agent name in ascending order, the joined rows of the satellite relation
keyed by that name. With unique keys (the proved invariant) this is exactly
the SQL inner join ordered by `agents.name`. -/
def fetch_state (db : DB) : List StatusOut × List AssignOut :=
  ( (sortNames db.agents).flatMap (fun a =>
      (db.status.filter (fun r => r.agent_name == a)).map (fun r =>
        ⟨a, r.backlog, r.active, r.priority.getD ""⟩)),
    (sortNames db.agents).flatMap (fun a =>
      (db.assignment.filter (fun r => r.agent_name == a)).map (fun r =>
        ⟨a, r.easy_to_handle, r.investigation, r.autoclose_tickets⟩)) )

/-- Control flow of `fetch_state`'s `try/except` wrapper. Each element of
`outs` is the outcome of one read attempt: `true` when the two SELECTs
succeed, `false` when they raise `OperationalError`/`ProgrammingError`
(relations absent, connection failure, ...). On a failed attempt the code
runs `init_db()` and then calls `fetch_state()` again; `none` means the
modelled horizon of attempts was exhausted without the recursion returning. -/
def fetch_state_go (db : DB) : List Bool → Option (DB × (List StatusOut × List AssignOut))
  | [] => none
  | ok :: rest =>
      if ok then some (db, fetch_state db) else fetch_state_go (init_db db) rest

/-- Number of read attempts `fetch_state` performs against the attempt
outcomes `outs` (same recursion as `fetch_state_go`). -/
def fetch_state_reads (db : DB) : List Bool → Nat
  | [] => 0
  | ok :: rest => if ok then 1 else 1 + fetch_state_reads (init_db db) rest

/-! ## Mutations -/

/-- `ALLOWED_STATUS_FIELDS = {"backlog", "active", "priority"}`. -/
def ALLOWED_STATUS_FIELDS : List String := ["backlog", "active", "priority"]

/-- `ALLOWED_ASSIGN_FIELDS = {"easy_to_handle", "investigation", "autoclose_tickets"}`. -/
def ALLOWED_ASSIGN_FIELDS : List String := ["easy_to_handle", "investigation", "autoclose_tickets"]

/-- `PRIORITY_VALUES = {"", "P1", "P2"}`. -/
def PRIORITY_VALUES : List String := ["", "P1", "P2"]

/-- The Python test `field not in ALLOWED`, where `field` may be absent
(`data.get` returned `None`, which is never in the set). -/
def inFields (field : Option String) (allowed : List String) : Bool :=
  match field with
  | some f => allowed.contains f
  | none => false

/-- Events emitted by the handlers. `error_msg` goes to the requesting
connection only; `cell_updated` and `agent_renamed` are broadcasts to all
connected clients. -/
inductive Event where
  | error_msg (message : String)
  | cell_updated (agent table field : String) (value : Option String)
  | agent_renamed (old_name new_name : String)
deriving Repr, DecidableEq

/-- Payload of the `update_cell` event; `data.get` yields `none` for an
absent key. Values arriving from the client are strings. -/
structure UpdatePayload where
  table : Option String
  agent : Option String
  field : Option String
  value : Option String
deriving Repr, DecidableEq

/-- Payload of the `rename_agent` event. -/
structure RenamePayload where
  old_name : Option String
  new_name : Option String
deriving Repr, DecidableEq

/-- `SELECT count(*) FROM rel WHERE key = a` over a list of rows. -/
def keyCount {α : Type} (key : α → String) (a : String) (l : List α) : Nat :=
  l.countP (fun r => key r == a)

/-- `UPDATE rel SET ... WHERE key = a`: apply `g` to every row keyed `a`. -/
def updWhere {α : Type} (key : α → String) (a : String) (g : α → α) (l : List α) : List α :=
  l.map (fun r => if key r == a then g r else r)

/-- The upsert block of `on_update_cell` (lines 157-166): for each of the
three relations, if no row is keyed by `agent`, insert the default row. -/
def ensureRows (agent : String) (db : DB) : DB :=
  { agents := if db.agents.count agent = 0 then db.agents ++ [agent] else db.agents
    status :=
      if keyCount StatusRow.agent_name agent db.status = 0
      then db.status ++ [zeroStatus agent] else db.status
    assignment :=
      if keyCount AssignRow.agent_name agent db.assignment = 0
      then db.assignment ++ [zeroAssign agent] else db.assignment }

/-- Priority normalization of `on_update_cell`:
`val = (value or "").upper(); if val not in PRIORITY_VALUES: val = ""` and
the value stored in the nullable column is `val if val else None`. -/
def normPriority (value : Option String) : Option String :=
  let val := pyUpper (value.getD "")
  let val := if val ∈ PRIORITY_VALUES then val else ""
  if val = "" then none else some val

/-- Numeric normalization of `on_update_cell`:
`try: num = int(value) except: num = 0` then `if num < 0: num = 0`. -/
def normNum (value : Option String) : Int :=
  let num := (pyInt value).getD 0
  if num < 0 then 0 else num

/-- `status.update().values({field: num})` for the two numeric status
columns (the numeric branch is only reachable with `field` ≠ `"priority"`). -/
def setStatusField (f : String) (n : Int) (r : StatusRow) : StatusRow :=
  if f = "backlog" then { r with backlog := n }
  else if f = "active" then { r with active := n }
  else r

/-- `assignment.update().values({field: num})` for the three assignment
columns. -/
def setAssignField (f : String) (n : Int) (r : AssignRow) : AssignRow :=
  if f = "easy_to_handle" then { r with easy_to_handle := n }
  else if f = "investigation" then { r with investigation := n }
  else if f = "autoclose_tickets" then { r with autoclose_tickets := n }
  else r

/-- The write block of `on_update_cell` (lines 168-184): the priority branch
updates `status.priority`, the numeric branch updates one column of the
relation selected by `table`. -/
def writeCell (table agent field : String) (value : Option String) (db : DB) : DB :=
  if field = "priority" then
    { db with status := updWhere StatusRow.agent_name agent (fun r => { r with priority := normPriority value }) db.status }
  else
    let num := normNum value
    if table = "status" then
      { db with status := updWhere StatusRow.agent_name agent (setStatusField field num) db.status }
    else
      { db with assignment := updWhere AssignRow.agent_name agent (setAssignField field num) db.assignment }

/-- The `update_cell` handler (lines 138-187). Validation happens before the
transaction; the success path runs the upsert then the write and broadcasts
`cell_updated` carrying the agent (stripped), the table, the field and the
raw payload value. On the success path validation guarantees `table` and
`field` are present strings, so `Option.getD ""` is the identity there. -/
def on_update_cell (db : DB) (d : UpdatePayload) : DB × List Event :=
  let agent := pyStrip (d.agent.getD "")
  if agent = "" then (db, [.error_msg "Agent is required."])
  else if d.table ≠ some "status" ∧ d.table ≠ some "assignment" then
    (db, [.error_msg "Invalid table"])
  else if d.table = some "status" ∧ inFields d.field ALLOWED_STATUS_FIELDS = false then
    (db, [.error_msg "Invalid field"])
  else if d.table = some "assignment" ∧ inFields d.field ALLOWED_ASSIGN_FIELDS = false then
    (db, [.error_msg "Invalid field"])
  else
    let t := d.table.getD ""
    let f := d.field.getD ""
    let db2 := writeCell t agent f d.value (ensureRows agent db)
    (db2, [.cell_updated agent t f d.value])

/-- The `rename_agent` handler (lines 189-209): strip both names, reject
empty names, silently accept `old == new`, reject a missing source or an
existing target, otherwise rename the key in all three relations inside one
transaction and broadcast `agent_renamed`. -/
def on_rename_agent (db : DB) (d : RenamePayload) : DB × List Event :=
  let old := pyStrip (d.old_name.getD "")
  let new := pyStrip (d.new_name.getD "")
  if old = "" ∨ new = "" then (db, [.error_msg "Agent name cannot be empty."])
  else if old = new then (db, [])
  else if db.agents.count old = 0 then
    (db, [.error_msg "Original agent not found."])
  else if db.agents.count new ≠ 0 then
    (db, [.error_msg "Target name already exists."])
  else
    ( { agents := db.agents.map (fun a => if a == old then new else a)
        status := updWhere StatusRow.agent_name old (fun r => { r with agent_name := new }) db.status
        assignment := updWhere AssignRow.agent_name old (fun r => { r with agent_name := new }) db.assignment },
      [.agent_renamed old new] )

/-! ## Derived predicates used in the statements -/

/-- The 1:1:1 well-formedness invariant of the data model: agent names are
unique (primary key), every agent has exactly one `status` row and exactly
one `assignment` row, and no satellite row exists without its agent. -/
def Inv (db : DB) : Prop :=
  db.agents.Nodup ∧
  (∀ a ∈ db.agents, keyCount StatusRow.agent_name a db.status = 1) ∧
  (∀ a ∈ db.agents, keyCount AssignRow.agent_name a db.assignment = 1) ∧
  (∀ r ∈ db.status, r.agent_name ∈ db.agents) ∧
  (∀ r ∈ db.assignment, r.agent_name ∈ db.agents)

/-- An `update_cell` payload that passes all four validation checks of
`on_update_cell`: nonempty stripped agent, a known table, and a field
allowed for that table. -/
def ValidEdit (d : UpdatePayload) : Prop :=
  pyStrip (d.agent.getD "") ≠ "" ∧
  ((d.table = some "status" ∧ inFields d.field ALLOWED_STATUS_FIELDS = true) ∨
   (d.table = some "assignment" ∧ inFields d.field ALLOWED_ASSIGN_FIELDS = true))

/-- `true` iff the string has no leading and no trailing whitespace
character. -/
def noSurroundWS (s : String) : Bool :=
  (match s.data.head? with | none => true | some c => !c.isWhitespace) &&
  (match s.data.getLast? with | none => true | some c => !c.isWhitespace)

/-- All agent keys stored in the three relations are free of surrounding
whitespace. -/
def TrimmedKeys (db : DB) : Prop :=
  (∀ a ∈ db.agents, noSurroundWS a = true) ∧
  (∀ r ∈ db.status, noSurroundWS r.agent_name = true) ∧
  (∀ r ∈ db.assignment, noSurroundWS r.agent_name = true)

/-- The value stored in a numeric status column by `setStatusField`. -/
def statusFieldVal (f : String) (r : StatusRow) : Int :=
  if f = "backlog" then r.backlog
  else if f = "active" then r.active
  else 0

/-- The value stored in a numeric assignment column by `setAssignField`. -/
def assignFieldVal (f : String) (r : AssignRow) : Int :=
  if f = "easy_to_handle" then r.easy_to_handle
  else if f = "investigation" then r.investigation
  else if f = "autoclose_tickets" then r.autoclose_tickets
  else 0

/-- The `status` row produced for a freshly auto-created agent after the
requested edit is applied: the zero-valued default row, with the priority
or numeric-status edit applied when the edit targets the status table. -/
def newStatusRow (a t f : String) (v : Option String) : StatusRow :=
  if f = "priority" then ⟨a, 0, 0, normPriority v⟩
  else if t = "status" then setStatusField f (normNum v) (zeroStatus a)
  else zeroStatus a

/-- The `assignment` row produced for a freshly auto-created agent after the
requested edit is applied. -/
def newAssignRow (a t f : String) (v : Option String) : AssignRow :=
  if f ≠ "priority" ∧ t = "assignment" then setAssignField f (normNum v) (zeroAssign a)
  else zeroAssign a

/-! ## Helper lemmas: counting and updating rows by key -/

theorem keyCount_append {α : Type} (key : α → String) (a : String) (l₁ l₂ : List α) :
    keyCount key a (l₁ ++ l₂) = keyCount key a l₁ + keyCount key a l₂ :=
  List.countP_append _ _ _

theorem keyCount_eq_zero {α : Type} {key : α → String} {a : String} {l : List α} :
    keyCount key a l = 0 ↔ ∀ r ∈ l, key r ≠ a := by
  simp [keyCount, List.countP_eq_zero]

theorem keyCount_pos {α : Type} {key : α → String} {a : String} {l : List α} :
    0 < keyCount key a l ↔ ∃ r ∈ l, key r = a := by
  simp [keyCount, List.countP_pos_iff]

theorem keys_updWhere {α : Type} (key : α → String) (a : String) (g : α → α)
    (hg : ∀ r, key (g r) = key r) (l : List α) :
    (updWhere key a g l).map key = l.map key := by
  unfold updWhere
  rw [List.map_map]
  apply List.map_congr_left
  intro r _
  by_cases h : key r = a <;> simp [h, hg]

theorem keyCount_updWhere {α : Type} (key : α → String) (a b : String) (g : α → α)
    (hg : ∀ r, key (g r) = key r) (l : List α) :
    keyCount key b (updWhere key a g l) = keyCount key b l := by
  unfold keyCount updWhere
  rw [List.countP_map]
  apply List.countP_congr
  intro r _
  by_cases h : key r = a <;> simp [h, hg]

theorem mem_updWhere_of_key {α : Type} {key : α → String} {a : String} {g : α → α}
    {l : List α} {r' : α}
    (hmem : r' ∈ updWhere key a g l) (hkey : key r' = a) :
    ∃ r ∈ l, key r = a ∧ r' = g r := by
  unfold updWhere at hmem
  obtain ⟨r, hr, hr'⟩ := List.mem_map.mp hmem
  by_cases h : key r = a
  · exact ⟨r, hr, h, by simpa [h] using hr'.symm⟩
  · rw [if_neg (by simpa using h)] at hr'
    subst hr'
    exact absurd hkey h

theorem updWhere_mem_of_mem {α : Type} {key : α → String} {a : String} {g : α → α}
    {l : List α} {r : α} (hr : r ∈ l) (hkey : key r = a) :
    g r ∈ updWhere key a g l := by
  unfold updWhere
  exact List.mem_map.mpr ⟨r, hr, by simp [hkey]⟩

theorem filter_updWhere {α : Type} (key : α → String) (a : String) (g : α → α)
    (hg : ∀ r, key (g r) = key r) (l : List α) :
    (updWhere key a g l).filter (fun r => key r == a) =
      (l.filter (fun r => key r == a)).map g := by
  induction l with
  | nil => rfl
  | cons r l ih =>
    show ((if key r == a then g r else r) :: updWhere key a g l).filter _ = _
    by_cases h : key r = a
    · simp only [h, beq_self_eq_true, if_true, List.filter_cons, hg, List.map_cons]
      rw [ih]
    · have hb : (key r == a) = false := by simpa using h
      simp only [hb, Bool.false_eq_true, if_false, List.filter_cons]
      rw [ih]

/-! ## Helper lemmas: stripping whitespace -/

theorem head?_dropWhile_false (p : Char → Bool) :
    ∀ (l : List Char) (c : Char), (l.dropWhile p).head? = some c → p c = false := by
  intro l
  induction l with
  | nil => intro c h; simp [List.dropWhile] at h
  | cons a l ih =>
    intro c h
    rw [List.dropWhile_cons] at h
    by_cases hp : p a
    · exact ih c (by simpa [hp] using h)
    · rw [if_neg hp] at h
      simp only [List.head?_cons, Option.some.injEq] at h
      rw [← h]
      simpa using hp

theorem getLast?_trimR_false (l : List Char) (c : Char)
    (h : (trimR l).getLast? = some c) : c.isWhitespace = false := by
  unfold trimR at h
  rw [List.getLast?_reverse] at h
  exact head?_dropWhile_false _ _ _ h

theorem head?_trimR (l : List Char) (h : trimR l ≠ []) : (trimR l).head? = l.head? := by
  have hd : List.dropWhile Char.isWhitespace l.reverse ≠ [] := by
    intro hnil
    apply h
    unfold trimR
    rw [hnil]
    rfl
  obtain ⟨pre, hpre⟩ := @List.dropWhile_suffix Char l.reverse Char.isWhitespace
  unfold trimR
  rw [List.head?_reverse]
  calc (List.dropWhile Char.isWhitespace l.reverse).getLast?
      = (pre ++ List.dropWhile Char.isWhitespace l.reverse).getLast? :=
        (List.getLast?_append_of_ne_nil _ hd).symm
    _ = l.reverse.getLast? := by rw [hpre]
    _ = l.head? := List.getLast?_reverse l

theorem noSurroundWS_pyStrip (s : String) : noSurroundWS (pyStrip s) = true := by
  unfold noSurroundWS pyStrip
  rw [Bool.and_eq_true]
  constructor
  · cases hh : (trimR (trimL s.data)).head? with
    | none => rfl
    | some c =>
      have hne : trimR (trimL s.data) ≠ [] := by
        intro hnil; rw [hnil] at hh; simp at hh
      rw [head?_trimR _ hne] at hh
      have := head?_dropWhile_false Char.isWhitespace s.data c hh
      simp [this]
  · cases hh : (trimR (trimL s.data)).getLast? with
    | none => rfl
    | some c =>
      have := getLast?_trimR_false (trimL s.data) c hh
      simp [this]

theorem dropWhile_append_of_all (p : Char → Bool) :
    ∀ (w x : List Char), (∀ c ∈ w, p c = true) →
      (w ++ x).dropWhile p = x.dropWhile p := by
  intro w
  induction w with
  | nil => intro x _; rfl
  | cons a w ih =>
    intro x h
    rw [List.cons_append, List.dropWhile_cons, if_pos (h a (List.mem_cons_self a w))]
    exact ih x (fun c hc => h c (List.mem_cons_of_mem a hc))

theorem dropWhile_append_of_ne_nil (p : Char → Bool) :
    ∀ (x y : List Char), x.dropWhile p ≠ [] →
      (x ++ y).dropWhile p = x.dropWhile p ++ y := by
  intro x
  induction x with
  | nil => intro y h; exact absurd rfl h
  | cons a x ih =>
    intro y h
    rw [List.cons_append, List.dropWhile_cons, List.dropWhile_cons]
    rw [List.dropWhile_cons] at h
    by_cases hp : p a
    · rw [if_pos hp] at h
      rw [if_pos hp, if_pos hp]
      exact ih y h
    · rw [if_neg hp, if_neg hp]
      rfl

theorem all_reverse_of_all {p : Char → Bool} {w : List Char}
    (h : ∀ c ∈ w, p c = true) : ∀ c ∈ w.reverse, p c = true :=
  fun c hc => h c (List.mem_reverse.mp hc)

theorem pyStrip_pad (w₁ w₂ core : List Char)
    (h1 : ∀ c ∈ w₁, c.isWhitespace = true) (h2 : ∀ c ∈ w₂, c.isWhitespace = true) :
    pyStrip ⟨w₁ ++ (core ++ w₂)⟩ = pyStrip ⟨core⟩ := by
  unfold pyStrip trimL
  show String.mk (trimR (List.dropWhile _ (w₁ ++ (core ++ w₂)))) = _
  rw [dropWhile_append_of_all _ _ _ h1]
  by_cases hc : core.dropWhile Char.isWhitespace = []
  · have hall : ∀ c ∈ core, c.isWhitespace = true := List.dropWhile_eq_nil_iff.mp hc
    rw [dropWhile_append_of_all _ _ _ hall, List.dropWhile_eq_nil_iff.mpr h2, hc]
  · rw [dropWhile_append_of_ne_nil _ _ _ hc]
    unfold trimR
    rw [List.reverse_append, dropWhile_append_of_all _ _ _ (all_reverse_of_all h2)]

/-! ## Helper lemmas: the join of `fetch_state` -/

theorem map_flatMap_singleton {β : Type} (g : β → String) (f : String → List β) :
    ∀ l : List String, (∀ a ∈ l, (f a).map g = [a]) → (l.flatMap f).map g = l := by
  intro l
  induction l with
  | nil => intro _; rfl
  | cons a l ih =>
    intro h
    rw [List.flatMap_cons, List.map_append, h a (List.mem_cons_self a l),
      ih (fun b hb => h b (List.mem_cons_of_mem a hb))]
    rfl

/-! ## Helper lemmas: renaming a key -/

theorem count_map_rename (old new : String) (hon : old ≠ new) :
    ∀ (l : List String) (b : String),
      (l.map (fun k => if k = old then new else k)).count b =
        if b = new then l.count old + l.count new
        else if b = old then 0 else l.count b := by
  intro l
  induction l with
  | nil =>
    intro b
    simp only [List.map_nil, List.count_nil]
    split <;> try rfl
    split <;> rfl
  | cons a l ih =>
    intro b
    rw [List.map_cons]
    by_cases hao : a = old <;> by_cases hbn : b = new
    · simp [hao, hbn, List.count_cons, ih new, hon, Ne.symm hon]
      omega
    · by_cases hbo : b = old
      · simp [hao, hbn, hbo, List.count_cons, ih old, hon, Ne.symm hon]
      · simp [hao, hbn, hbo, List.count_cons, ih b, Ne.symm hbn, Ne.symm hbo]
    · simp [hao, hbn, List.count_cons, ih new, hon, Ne.symm hon]
      omega
    · by_cases hbo : b = old
      · simp [hao, hbn, hbo, List.count_cons, ih old, hon, Ne.symm hon]
      · simp [hao, hbn, hbo, List.count_cons, ih b, Ne.symm hbn, Ne.symm hbo]

/-! ## Helper lemmas: reducing the handlers on their main paths -/

theorem on_update_cell_valid (db : DB) (d : UpdatePayload) (h : ValidEdit d) :
    on_update_cell db d =
      (writeCell (d.table.getD "") (pyStrip (d.agent.getD "")) (d.field.getD "") d.value
        (ensureRows (pyStrip (d.agent.getD "")) db),
       [Event.cell_updated (pyStrip (d.agent.getD "")) (d.table.getD "") (d.field.getD "") d.value]) := by
  obtain ⟨h1, h2⟩ := h
  unfold on_update_cell
  rcases h2 with ⟨ht, hf⟩ | ⟨ht, hf⟩ <;> simp [ht, hf, h1]

theorem on_rename_agent_success (db : DB) (d : RenamePayload) (old new : String)
    (hold : pyStrip (d.old_name.getD "") = old) (hnew : pyStrip (d.new_name.getD "") = new)
    (h1 : old ≠ "") (h2 : new ≠ "") (h3 : old ≠ new)
    (hmem : old ∈ db.agents) (hnot : new ∉ db.agents) :
    on_rename_agent db d =
      ({ agents := db.agents.map (fun a => if a == old then new else a)
         status := updWhere StatusRow.agent_name old (fun r => { r with agent_name := new }) db.status
         assignment := updWhere AssignRow.agent_name old (fun r => { r with agent_name := new }) db.assignment },
       [Event.agent_renamed old new]) := by
  have hc1 : db.agents.count old ≠ 0 := by
    rw [Ne, List.count_eq_zero]
    simpa using hmem
  have hc2 : db.agents.count new = 0 := List.count_eq_zero.mpr hnot
  unfold on_rename_agent
  rw [hold, hnew]
  simp [h1, h2, h3, hc1, hc2]

/-! ## Helper lemmas: key structure of the mutation steps -/

theorem setStatusField_key (f : String) (n : Int) (r : StatusRow) :
    (setStatusField f n r).agent_name = r.agent_name := by
  unfold setStatusField
  split_ifs <;> rfl

theorem setAssignField_key (f : String) (n : Int) (r : AssignRow) :
    (setAssignField f n r).agent_name = r.agent_name := by
  unfold setAssignField
  split_ifs <;> rfl

theorem keyCount_eq_count_keys {α : Type} (key : α → String) (b : String) (l : List α) :
    keyCount key b l = (l.map key).count b := by
  rw [List.count_eq_countP, List.countP_map]
  rfl

theorem mem_updWhere_key_mem {α : Type} {key : α → String} {a : String} {g : α → α}
    {l : List α} {r' : α} (h : r' ∈ updWhere key a g l) (hg : ∀ r, key (g r) = key r) :
    ∃ r ∈ l, key r' = key r := by
  obtain ⟨r, hr, hr'⟩ := List.mem_map.mp h
  refine ⟨r, hr, ?_⟩
  rw [← hr']
  by_cases hk : key r = a
  · simp [hk, hg]
  · simp [(by simpa using hk : (key r == a) = false)]

theorem keys_updWhere_rename {α : Type} (key : α → String) (old new : String)
    (g : α → α) (hg : ∀ r, key (g r) = new) (l : List α) :
    (updWhere key old g l).map key = (l.map key).map (fun k => if k = old then new else k) := by
  unfold updWhere
  rw [List.map_map, List.map_map]
  apply List.map_congr_left
  intro r _
  by_cases h : key r = old <;> simp [h, hg]

/-! ## Invariant preservation -/

theorem ensureRows_of_mem {db : DB} {a : String} (hinv : Inv db) (ha : a ∈ db.agents) :
    ensureRows a db = db := by
  obtain ⟨hnd, hs, hasg, hks, hka⟩ := hinv
  have h1 : ¬ db.agents.count a = 0 := by
    rw [List.count_eq_zero]
    simpa using ha
  have h2 : ¬ keyCount StatusRow.agent_name a db.status = 0 := by
    rw [hs a ha]
    exact one_ne_zero
  have h3 : ¬ keyCount AssignRow.agent_name a db.assignment = 0 := by
    rw [hasg a ha]
    exact one_ne_zero
  simp [ensureRows, h1, h2, h3]

theorem ensureRows_of_not_mem {db : DB} {a : String} (hinv : Inv db) (ha : a ∉ db.agents) :
    ensureRows a db =
      ⟨db.agents ++ [a], db.status ++ [zeroStatus a], db.assignment ++ [zeroAssign a]⟩ := by
  obtain ⟨hnd, hs, hasg, hks, hka⟩ := hinv
  have h1 : db.agents.count a = 0 := List.count_eq_zero.mpr ha
  have h2 : keyCount StatusRow.agent_name a db.status = 0 :=
    keyCount_eq_zero.mpr (fun r hr hra => ha (hra ▸ hks r hr))
  have h3 : keyCount AssignRow.agent_name a db.assignment = 0 :=
    keyCount_eq_zero.mpr (fun r hr hra => ha (hra ▸ hka r hr))
  simp [ensureRows, h1, h2, h3]

theorem Inv_ensureRows {db : DB} (a : String) (hinv : Inv db) : Inv (ensureRows a db) := by
  by_cases ha : a ∈ db.agents
  · rw [ensureRows_of_mem hinv ha]
    exact hinv
  · rw [ensureRows_of_not_mem hinv ha]
    obtain ⟨hnd, hs, hasg, hks, hka⟩ := hinv
    refine ⟨?_, ?_, ?_, ?_, ?_⟩
    · rw [List.nodup_append]
      refine ⟨hnd, List.nodup_singleton a, ?_⟩
      intro x hx hxa
      exact ha ((List.mem_singleton.mp hxa) ▸ hx)
    · intro b hb
      rw [keyCount_append]
      rcases List.mem_append.mp hb with hb | hb
      · have hba : b ≠ a := fun hh => ha (hh ▸ hb)
        have hz : keyCount StatusRow.agent_name b [zeroStatus a] = 0 :=
          keyCount_eq_zero.mpr (by intro r hr; simp at hr; subst hr; exact fun hh => hba hh.symm)
        rw [hs b hb, hz]
      · simp at hb
        subst hb
        have hz : keyCount StatusRow.agent_name b db.status = 0 :=
          keyCount_eq_zero.mpr (fun r hr hra => ha (hra ▸ hks r hr))
        rw [hz]
        simp [keyCount, List.countP_cons, zeroStatus]
    · intro b hb
      rw [keyCount_append]
      rcases List.mem_append.mp hb with hb | hb
      · have hba : b ≠ a := fun hh => ha (hh ▸ hb)
        have hz : keyCount AssignRow.agent_name b [zeroAssign a] = 0 :=
          keyCount_eq_zero.mpr (by intro r hr; simp at hr; subst hr; exact fun hh => hba hh.symm)
        rw [hasg b hb, hz]
      · simp at hb
        subst hb
        have hz : keyCount AssignRow.agent_name b db.assignment = 0 :=
          keyCount_eq_zero.mpr (fun r hr hra => ha (hra ▸ hka r hr))
        rw [hz]
        simp [keyCount, List.countP_cons, zeroAssign]
    · intro r hr
      rcases List.mem_append.mp hr with hr | hr
      · exact List.mem_append_left _ (hks r hr)
      · simp at hr
        subst hr
        simp [zeroStatus]
    · intro r hr
      rcases List.mem_append.mp hr with hr | hr
      · exact List.mem_append_left _ (hka r hr)
      · simp at hr
        subst hr
        simp [zeroAssign]

theorem Inv_writeCell (t a f : String) (v : Option String) {db : DB} (hinv : Inv db) :
    Inv (writeCell t a f v db) := by
  obtain ⟨hnd, hs, hasg, hks, hka⟩ := hinv
  unfold writeCell
  split_ifs with h1 h2
  · refine ⟨hnd, ?_, hasg, ?_, hka⟩
    · intro b hb
      rw [keyCount_updWhere StatusRow.agent_name a b
        (fun r => { r with priority := normPriority v }) (fun r => rfl) db.status]
      exact hs b hb
    · intro r hr
      obtain ⟨r0, hr0, hkey⟩ := mem_updWhere_key_mem hr (fun r => rfl)
      rw [hkey]
      exact hks r0 hr0
  · refine ⟨hnd, ?_, hasg, ?_, hka⟩
    · intro b hb
      rw [keyCount_updWhere StatusRow.agent_name a b
        (setStatusField f (normNum v)) (setStatusField_key f (normNum v)) db.status]
      exact hs b hb
    · intro r hr
      obtain ⟨r0, hr0, hkey⟩ := mem_updWhere_key_mem hr (setStatusField_key f (normNum v))
      rw [hkey]
      exact hks r0 hr0
  · refine ⟨hnd, hs, ?_, hks, ?_⟩
    · intro b hb
      rw [keyCount_updWhere AssignRow.agent_name a b
        (setAssignField f (normNum v)) (setAssignField_key f (normNum v)) db.assignment]
      exact hasg b hb
    · intro r hr
      obtain ⟨r0, hr0, hkey⟩ := mem_updWhere_key_mem hr (setAssignField_key f (normNum v))
      rw [hkey]
      exact hka r0 hr0

theorem Inv_rename {db : DB} {old new : String} (hinv : Inv db)
    (hmem : old ∈ db.agents) (hnot : new ∉ db.agents) (hon : old ≠ new) :
    Inv ⟨db.agents.map (fun a => if a == old then new else a),
         updWhere StatusRow.agent_name old (fun r => { r with agent_name := new }) db.status,
         updWhere AssignRow.agent_name old (fun r => { r with agent_name := new }) db.assignment⟩ := by
  obtain ⟨hnd, hs, hasg, hks, hka⟩ := hinv
  have hmap : db.agents.map (fun a => if a == old then new else a) =
      db.agents.map (fun a => if a = old then new else a) := by
    apply List.map_congr_left
    intro x _
    by_cases hx : x = old <;> simp [hx]
  have hnew0 : db.agents.count new = 0 := List.count_eq_zero.mpr hnot
  have hsnew : keyCount StatusRow.agent_name new db.status = 0 :=
    keyCount_eq_zero.mpr (fun r hr hra => hnot (hra ▸ hks r hr))
  have hanew : keyCount AssignRow.agent_name new db.assignment = 0 :=
    keyCount_eq_zero.mpr (fun r hr hra => hnot (hra ▸ hka r hr))
  have hks' : (updWhere StatusRow.agent_name old (fun r => { r with agent_name := new }) db.status).map StatusRow.agent_name =
      (db.status.map StatusRow.agent_name).map (fun k => if k = old then new else k) :=
    keys_updWhere_rename StatusRow.agent_name old new
      (fun r => { r with agent_name := new }) (fun r => rfl) db.status
  have hka' : (updWhere AssignRow.agent_name old (fun r => { r with agent_name := new }) db.assignment).map AssignRow.agent_name =
      (db.assignment.map AssignRow.agent_name).map (fun k => if k = old then new else k) :=
    keys_updWhere_rename AssignRow.agent_name old new
      (fun r => { r with agent_name := new }) (fun r => rfl) db.assignment
  have hmem_iff : ∀ b, b ∈ db.agents.map (fun a => if a = old then new else a) →
      b = new ∨ (b ∈ db.agents ∧ b ≠ old ∧ b ≠ new) := by
    intro b hb
    obtain ⟨a0, ha0, hfa⟩ := List.mem_map.mp hb
    by_cases h0 : a0 = old
    · left
      rw [← hfa, if_pos h0]
    · right
      rw [if_neg h0] at hfa
      subst hfa
      exact ⟨ha0, h0, fun hh => hnot (hh ▸ ha0)⟩
  refine ⟨?_, ?_, ?_, ?_, ?_⟩
  · rw [hmap, List.nodup_iff_count_le_one]
    intro b
    rw [count_map_rename old new hon]
    have hold1 : db.agents.count old ≤ 1 := List.nodup_iff_count_le_one.mp hnd old
    split_ifs
    · omega
    · omega
    · exact List.nodup_iff_count_le_one.mp hnd b
  · intro b hb
    rw [hmap] at hb
    rw [keyCount_eq_count_keys, hks', count_map_rename old new hon]
    rcases hmem_iff b hb with hb' | ⟨hbmem, hbo, hbn⟩
    · subst hb'
      rw [if_pos rfl, ← keyCount_eq_count_keys, ← keyCount_eq_count_keys, hs old hmem, hsnew]
    · rw [if_neg hbn, if_neg hbo, ← keyCount_eq_count_keys]
      exact hs b hbmem
  · intro b hb
    rw [hmap] at hb
    rw [keyCount_eq_count_keys, hka', count_map_rename old new hon]
    rcases hmem_iff b hb with hb' | ⟨hbmem, hbo, hbn⟩
    · subst hb'
      rw [if_pos rfl, ← keyCount_eq_count_keys, ← keyCount_eq_count_keys, hasg old hmem, hanew]
    · rw [if_neg hbn, if_neg hbo, ← keyCount_eq_count_keys]
      exact hasg b hbmem
  · intro r hr
    have hkmem : r.agent_name ∈ (updWhere StatusRow.agent_name old (fun r => { r with agent_name := new }) db.status).map StatusRow.agent_name :=
      List.mem_map.mpr ⟨r, hr, rfl⟩
    rw [hks'] at hkmem
    obtain ⟨k0, hk0, hfk⟩ := List.mem_map.mp hkmem
    obtain ⟨r0, hr0, hkr0⟩ := List.mem_map.mp hk0
    rw [hmap]
    apply List.mem_map.mpr
    exact ⟨k0, hkr0 ▸ hks r0 hr0, hfk⟩
  · intro r hr
    have hkmem : r.agent_name ∈ (updWhere AssignRow.agent_name old (fun r => { r with agent_name := new }) db.assignment).map AssignRow.agent_name :=
      List.mem_map.mpr ⟨r, hr, rfl⟩
    rw [hka'] at hkmem
    obtain ⟨k0, hk0, hfk⟩ := List.mem_map.mp hkmem
    obtain ⟨r0, hr0, hkr0⟩ := List.mem_map.mp hk0
    rw [hmap]
    apply List.mem_map.mpr
    exact ⟨k0, hkr0 ▸ hka r0 hr0, hfk⟩

theorem Inv_init_db {db : DB} (hinv : Inv db) : Inv (init_db db) := by
  unfold init_db
  split_ifs with h
  · unfold Inv
    refine ⟨by decide, by decide, by decide, by decide, by decide⟩
  · exact hinv

theorem Inv_on_update_cell {db : DB} (d : UpdatePayload) (hinv : Inv db) :
    Inv (on_update_cell db d).1 := by
  simp only [on_update_cell]
  split_ifs <;> try exact hinv
  exact Inv_writeCell _ _ _ _ (Inv_ensureRows _ hinv)

theorem Inv_on_rename_agent {db : DB} (d : RenamePayload) (hinv : Inv db) :
    Inv (on_rename_agent db d).1 := by
  simp only [on_rename_agent]
  split_ifs with h1 h2 h3 h4 <;> try exact hinv
  refine Inv_rename hinv ?_ ?_ h2
  · rw [← List.count_pos_iff]
    omega
  · rw [← List.count_eq_zero]
    omega

/-! ## The seeded database used as concrete input in witnesses -/

/-- The database produced by running `init_db()` on an empty store: the four
default agents, each with zero-valued status and assignment rows. -/
def seedDB : DB := init_db ⟨[], [], []⟩

/-! ## Claim C1 -/

/-- C1, counterexample. The claim says the value carried in the `cell_updated`
broadcast equals the normalized value actually stored. On the seeded database,
updating Victor's priority with the raw input `"p1"` stores the normalized
`"P1"` (every status row keyed `Victor` holds `some "P1"`), yet the broadcast
carries the raw client input `"p1"`, so the claim is false at this input. -/
theorem C1_counterexample :
    (on_update_cell seedDB ⟨some "status", some "Victor", some "priority", some "p1"⟩).2 =
      [Event.cell_updated "Victor" "status" "priority" (some "p1")] ∧
    (∀ r ∈ (on_update_cell seedDB ⟨some "status", some "Victor", some "priority", some "p1"⟩).1.status,
      r.agent_name = "Victor" → r.priority = some "P1") := by
  decide

/-- C1, amended: on every successful `update_cell` edit, the `cell_updated`
broadcast carries the client's raw payload value (together with the stripped
agent name, table and field), not the normalized value that was stored. -/
theorem C1_broadcast_raw_value (db : DB) (d : UpdatePayload) (h : ValidEdit d) :
    (on_update_cell db d).2 =
      [Event.cell_updated (pyStrip (d.agent.getD "")) (d.table.getD "") (d.field.getD "") d.value] := by
  rw [on_update_cell_valid db d h]

/-- C1, witness for the amended theorem at a concrete input. -/
theorem C1_broadcast_raw_value_witness :
    ValidEdit ⟨some "status", some "Victor", some "backlog", some "5"⟩ ∧
    (on_update_cell seedDB ⟨some "status", some "Victor", some "backlog", some "5"⟩).2 =
      [Event.cell_updated "Victor" "status" "backlog" (some "5")] :=
  ⟨by unfold ValidEdit; decide,
   (C1_broadcast_raw_value seedDB ⟨some "status", some "Victor", some "backlog", some "5"⟩
     (by unfold ValidEdit; decide)).trans (by decide)⟩

/-! ## Claim C2 -/

/-- C2, counterexample. The claim says a failed full-state read is retried
exactly once and a second failure is fatal and surfaced. Against the attempt
outcomes `[false, false, true]` (read fails, retry fails, next read succeeds)
the code performs a third read — `fetch_state_reads` is `3`, not at most `2` —
and returns successfully instead of surfacing the second failure. -/
theorem C2_counterexample :
    fetch_state_reads ⟨[], [], []⟩ [false, false, true] = 3 ∧
    (fetch_state_go ⟨[], [], []⟩ [false, false, true]).isSome = true := by
  constructor
  · rfl
  · rfl

/-- C2, amended: on a failed read `fetch_state` reinitializes the schema and
calls itself again with no retry limit: after `n` consecutive failures
followed by one success it has performed `n + 1` reads and returns the state;
a repeated failure leads to another reinitialize-and-retry, never to a
surfaced fatal error. -/
theorem C2_retries_unbounded (db : DB) (n : Nat) (rest : List Bool) :
    fetch_state_reads db (List.replicate n false ++ true :: rest) = n + 1 ∧
    (fetch_state_go db (List.replicate n false ++ true :: rest)).isSome = true := by
  induction n generalizing db with
  | zero =>
    constructor
    · rfl
    · rfl
  | succ n ih =>
    rw [List.replicate_succ, List.cons_append]
    unfold fetch_state_reads fetch_state_go
    simp only [Bool.false_eq_true, if_false]
    obtain ⟨h1, h2⟩ := ih (init_db db)
    constructor
    · rw [h1]
      omega
    · exact h2

/-! ## Claim C9 -/

/-- C9, counterexample. The claim says `rename(x, x)` succeeds as a no-op for
every name `x`. For the empty name `x = ""` the handler does not succeed: it
emits a validation error to the sender (state is still unchanged and nothing
is broadcast). -/
theorem C9_counterexample :
    on_rename_agent seedDB ⟨some "", some ""⟩ =
      (seedDB, [Event.error_msg "Agent name cannot be empty."]) := by
  decide

/-- C9, amended: for every name that is nonempty after stripping, renaming an
agent to the same name succeeds as a silent no-op: no event at all is emitted
(in particular no broadcast) and the stored state is unchanged. -/
theorem C9_rename_self_noop (db : DB) (x : String) (h : pyStrip x ≠ "") :
    on_rename_agent db ⟨some x, some x⟩ = (db, []) := by
  unfold on_rename_agent
  simp [h]

/-- C9, witness for the amended theorem at a concrete input. -/
theorem C9_rename_self_noop_witness :
    pyStrip "Victor" ≠ "" ∧
    on_rename_agent seedDB ⟨some "Victor", some "Victor"⟩ = (seedDB, []) :=
  ⟨by decide, C9_rename_self_noop seedDB "Victor" (by decide)⟩

/-! ## Claim C8 -/

/-- C8, counterexample. The claim says every `rename(oldName, newName)` whose
`newName` already exists fails with a conflict error and emits an error
message. Renaming `"Victor"` to `"Victor"` on the seeded database has an
existing target, yet the handler succeeds silently as a no-op — no error
message is emitted — because the `old == new` check precedes the existence
checks. -/
theorem C8_counterexample :
    "Victor" ∈ seedDB.agents ∧
    on_rename_agent seedDB ⟨some "Victor", some "Victor"⟩ = (seedDB, []) := by
  decide

/-- C8, amended: for every `rename(oldName, newName)` whose stripped names are
nonempty and distinct, if the source does not exist the handler leaves the
state unchanged and emits only a not-found error to the requester, and if the
source exists but the target also exists it leaves the state unchanged and
emits only a conflict error; in both cases nothing is broadcast. -/
theorem C8_rename_failures (db : DB) (d : RenamePayload) (old new : String)
    (hold : pyStrip (d.old_name.getD "") = old) (hnew : pyStrip (d.new_name.getD "") = new)
    (h1 : old ≠ "") (h2 : new ≠ "") (h3 : old ≠ new) :
    (old ∉ db.agents →
      on_rename_agent db d = (db, [Event.error_msg "Original agent not found."])) ∧
    (old ∈ db.agents → new ∈ db.agents →
      on_rename_agent db d = (db, [Event.error_msg "Target name already exists."])) := by
  constructor
  · intro hno
    have hc : db.agents.count old = 0 := List.count_eq_zero.mpr hno
    unfold on_rename_agent
    rw [hold, hnew]
    simp [h1, h2, h3, hc]
  · intro hyes hnew'
    have hc1 : ¬ db.agents.count old = 0 := by
      rw [List.count_eq_zero]
      simpa using hyes
    have hc2 : ¬ db.agents.count new = 0 := by
      rw [List.count_eq_zero]
      simpa using hnew'
    unfold on_rename_agent
    rw [hold, hnew]
    simp [h1, h2, h3, hc1, hc2]

/-- C8, witness for the amended theorem at a concrete input. -/
theorem C8_rename_failures_witness :
    pyStrip ((some "Victor").getD "") = "Victor" ∧ pyStrip ((some "Julio").getD "") = "Julio" ∧
    "Victor" ≠ "" ∧ "Julio" ≠ "" ∧ "Victor" ≠ "Julio" ∧
    (("Victor" ∉ seedDB.agents →
      on_rename_agent seedDB ⟨some "Victor", some "Julio"⟩ =
        (seedDB, [Event.error_msg "Original agent not found."])) ∧
     ("Victor" ∈ seedDB.agents → "Julio" ∈ seedDB.agents →
      on_rename_agent seedDB ⟨some "Victor", some "Julio"⟩ =
        (seedDB, [Event.error_msg "Target name already exists."]))) :=
  ⟨by decide, by decide, by decide, by decide, by decide,
   C8_rename_failures seedDB ⟨some "Victor", some "Julio"⟩ "Victor" "Julio"
     (by decide) (by decide) (by decide) (by decide) (by decide)⟩

/-! ## Helper lemmas for the write path -/

theorem exists_status_key_ensureRows (a : String) (db : DB) :
    ∃ r ∈ (ensureRows a db).status, r.agent_name = a := by
  simp only [ensureRows]
  split_ifs with h
  · exact ⟨zeroStatus a, List.mem_append_right _ (List.mem_singleton.mpr rfl), rfl⟩
  · exact keyCount_pos.mp (Nat.pos_of_ne_zero h)

theorem exists_assign_key_ensureRows (a : String) (db : DB) :
    ∃ r ∈ (ensureRows a db).assignment, r.agent_name = a := by
  simp only [ensureRows]
  split_ifs with h
  · exact ⟨zeroAssign a, List.mem_append_right _ (List.mem_singleton.mpr rfl), rfl⟩
  · exact keyCount_pos.mp (Nat.pos_of_ne_zero h)

theorem writeCell_agents (t a f : String) (v : Option String) (db : DB) :
    (writeCell t a f v db).agents = db.agents := by
  unfold writeCell
  split_ifs <;> rfl

theorem normPriority_getD (v : Option String) :
    (normPriority v).getD "" =
      (if pyUpper (v.getD "") ∈ PRIORITY_VALUES then pyUpper (v.getD "") else "") := by
  simp only [normPriority]
  by_cases h1 : pyUpper (v.getD "") ∈ PRIORITY_VALUES
  · rw [if_pos h1]
    by_cases h2 : pyUpper (v.getD "") = ""
    · rw [if_pos h2]
      exact h2.symm
    · rw [if_neg h2]
      rfl
  · rw [if_neg h1, if_pos rfl]
    rfl

theorem normNum_eq_zero {v : Option String}
    (h : pyInt v = none ∨ ∃ n, pyInt v = some n ∧ n < 0) : normNum v = 0 := by
  unfold normNum
  rcases h with h | ⟨n, hn, hneg⟩
  · simp [h]
  · simp [hn, hneg]

theorem statusFieldVal_set (f : String) (hf : f = "backlog" ∨ f = "active")
    (n : Int) (r : StatusRow) : statusFieldVal f (setStatusField f n r) = n := by
  rcases hf with hf | hf <;> rw [hf] <;> rfl

theorem assignFieldVal_set (f : String) (hf : f ∈ ALLOWED_ASSIGN_FIELDS)
    (n : Int) (r : AssignRow) : assignFieldVal f (setAssignField f n r) = n := by
  simp only [ALLOWED_ASSIGN_FIELDS, List.mem_cons, List.mem_singleton, List.not_mem_nil] at hf
  rcases hf with hf | hf | hf | hf
  · rw [hf]; rfl
  · rw [hf]; rfl
  · rw [hf]; rfl
  · exact absurd hf (by simp)

/-! ## Claim C7 -/

/-- C7: every edit of the priority field uppercases the input; the value that
is stored (and read back through the `coalesce(priority, "")` of
`fetch_state`) is that uppercase form when it is one of `""`, `"P1"`, `"P2"`,
and `""` otherwise. The edited agent's row exists and every status row keyed
by the agent holds exactly this normalized value. -/
theorem C7_priority_normalization (db : DB) (d : UpdatePayload)
    (hagent : pyStrip (d.agent.getD "") ≠ "")
    (ht : d.table = some "status") (hf : d.field = some "priority") :
    (∃ r ∈ (on_update_cell db d).1.status, r.agent_name = pyStrip (d.agent.getD "")) ∧
    (∀ r ∈ (on_update_cell db d).1.status, r.agent_name = pyStrip (d.agent.getD "") →
      r.priority.getD "" =
        (if pyUpper (d.value.getD "") ∈ PRIORITY_VALUES then pyUpper (d.value.getD "") else "")) := by
  have hv : ValidEdit d := ⟨hagent, Or.inl ⟨ht, by rw [hf]; rfl⟩⟩
  rw [on_update_cell_valid db d hv]
  simp only [ht, hf, Option.getD_some]
  unfold writeCell
  rw [if_pos rfl]
  constructor
  · obtain ⟨r, hr, hkey⟩ := exists_status_key_ensureRows (pyStrip (d.agent.getD "")) db
    exact ⟨{ r with priority := normPriority d.value }, updWhere_mem_of_mem hr hkey, hkey⟩
  · intro r hr hrkey
    obtain ⟨r0, hr0, hk0, hreq⟩ := mem_updWhere_of_key hr hrkey
    subst hreq
    exact normPriority_getD d.value

/-- C7, witness at a concrete input: priority `"p1"` is stored as `"P1"`. -/
theorem C7_priority_normalization_witness :
    pyStrip ((some "Victor").getD "") ≠ "" ∧
    ((∃ r ∈ (on_update_cell (⟨[], [], []⟩ : DB)
        ⟨some "status", some "Victor", some "priority", some "p1"⟩).1.status,
        r.agent_name = pyStrip ((some "Victor").getD "")) ∧
     (∀ r ∈ (on_update_cell (⟨[], [], []⟩ : DB)
        ⟨some "status", some "Victor", some "priority", some "p1"⟩).1.status,
        r.agent_name = pyStrip ((some "Victor").getD "") →
        r.priority.getD "" =
          (if pyUpper ((some "p1").getD "") ∈ PRIORITY_VALUES
           then pyUpper ((some "p1").getD "") else ""))) :=
  ⟨by decide,
   C7_priority_normalization ⟨[], [], []⟩
     ⟨some "status", some "Victor", some "priority", some "p1"⟩ (by decide) rfl rfl⟩

/-! ## Claim C6 -/

/-- C6: for every valid numeric (table, field) pair, an `update_cell` edit
whose value does not parse as an integer, or parses to a negative integer,
stores `0` in that field: the edited agent's row exists and every row keyed
by the agent carries `0` in the edited column. -/
theorem C6_bad_numeric_stores_zero (db : DB) (d : UpdatePayload) (t f : String)
    (hagent : pyStrip (d.agent.getD "") ≠ "")
    (ht : d.table = some t) (hf : d.field = some f)
    (hvalid : (t = "status" ∧ (f = "backlog" ∨ f = "active")) ∨
              (t = "assignment" ∧ f ∈ ALLOWED_ASSIGN_FIELDS))
    (hbad : pyInt d.value = none ∨ ∃ n, pyInt d.value = some n ∧ n < 0) :
    (t = "status" →
      (∃ r ∈ (on_update_cell db d).1.status, r.agent_name = pyStrip (d.agent.getD "")) ∧
      (∀ r ∈ (on_update_cell db d).1.status, r.agent_name = pyStrip (d.agent.getD "") →
        statusFieldVal f r = 0)) ∧
    (t = "assignment" →
      (∃ r ∈ (on_update_cell db d).1.assignment, r.agent_name = pyStrip (d.agent.getD "")) ∧
      (∀ r ∈ (on_update_cell db d).1.assignment, r.agent_name = pyStrip (d.agent.getD "") →
        assignFieldVal f r = 0)) := by
  have hfp : f ≠ "priority" := by
    rcases hvalid with ⟨_, hf'⟩ | ⟨_, hf'⟩
    · rcases hf' with h | h <;> rw [h] <;> decide
    · simp only [ALLOWED_ASSIGN_FIELDS, List.mem_cons, List.mem_singleton,
        List.not_mem_nil, or_false] at hf'
      rcases hf' with h | h | h <;> rw [h] <;> decide
  have hv : ValidEdit d := by
    refine ⟨hagent, ?_⟩
    rcases hvalid with ⟨ht', hf'⟩ | ⟨ht', hf'⟩
    · left
      refine ⟨by rw [ht, ht'], ?_⟩
      rw [hf]
      rcases hf' with h | h <;> rw [h] <;> rfl
    · right
      refine ⟨by rw [ht, ht'], ?_⟩
      rw [hf]
      simp only [ALLOWED_ASSIGN_FIELDS, List.mem_cons, List.mem_singleton,
        List.not_mem_nil, or_false] at hf'
      rcases hf' with h | h | h <;> rw [h] <;> rfl
  rw [on_update_cell_valid db d hv]
  simp only [ht, hf, Option.getD_some]
  unfold writeCell
  rw [if_neg hfp, normNum_eq_zero hbad]
  rcases hvalid with ⟨ht', hf'⟩ | ⟨ht', hf'⟩
  · rw [if_pos ht']
    constructor
    · intro _
      constructor
      · obtain ⟨r, hr, hkey⟩ := exists_status_key_ensureRows (pyStrip (d.agent.getD "")) db
        exact ⟨setStatusField f 0 r, updWhere_mem_of_mem hr hkey,
          (setStatusField_key f 0 r).trans hkey⟩
      · intro r hr hrkey
        obtain ⟨r0, hr0, hk0, hreq⟩ := mem_updWhere_of_key hr hrkey
        subst hreq
        exact statusFieldVal_set f hf' 0 r0
    · intro hcon
      rw [ht'] at hcon
      exact absurd hcon (by decide)
  · rw [if_neg (by rw [ht']; decide)]
    constructor
    · intro hcon
      rw [ht'] at hcon
      exact absurd hcon (by decide)
    · intro _
      constructor
      · obtain ⟨r, hr, hkey⟩ := exists_assign_key_ensureRows (pyStrip (d.agent.getD "")) db
        exact ⟨setAssignField f 0 r, updWhere_mem_of_mem hr hkey,
          (setAssignField_key f 0 r).trans hkey⟩
      · intro r hr hrkey
        obtain ⟨r0, hr0, hk0, hreq⟩ := mem_updWhere_of_key hr hrkey
        subst hreq
        exact assignFieldVal_set f hf' 0 r0

/-- C6, witness at a concrete input: a non-numeric backlog value stores 0. -/
theorem C6_bad_numeric_stores_zero_witness :
    pyStrip ((some "Victor").getD "") ≠ "" ∧
    pyInt (some "abc") = none ∧
    (("status" : String) = "status" →
      (∃ r ∈ (on_update_cell seedDB ⟨some "status", some "Victor", some "backlog", some "abc"⟩).1.status,
        r.agent_name = pyStrip ((some "Victor").getD "")) ∧
      (∀ r ∈ (on_update_cell seedDB ⟨some "status", some "Victor", some "backlog", some "abc"⟩).1.status,
        r.agent_name = pyStrip ((some "Victor").getD "") → statusFieldVal "backlog" r = 0)) :=
  ⟨by decide, by decide,
   (C6_bad_numeric_stores_zero seedDB ⟨some "status", some "Victor", some "backlog", some "abc"⟩
      "status" "backlog" (by decide) rfl rfl (Or.inl ⟨rfl, Or.inl rfl⟩)
      (Or.inl (by decide))).1⟩

/-! ## Claim C3 -/

/-- C3: after a successful rename the Agent row and both satellite rows are
keyed by the new name — the old satellite rows reappear with the same data
under the new key — and no row in any of the three relations remains keyed by
the old name; the handler performs the three key updates inside one
`engine.begin()` transaction, which this embedding renders as the single
state transition proved here, and broadcasts `agent_renamed`. -/
theorem C3_rename_rekeys_all (db : DB) (d : RenamePayload) (old new : String)
    (hold : pyStrip (d.old_name.getD "") = old) (hnew : pyStrip (d.new_name.getD "") = new)
    (h1 : old ≠ "") (h2 : new ≠ "") (h3 : old ≠ new)
    (hmem : old ∈ db.agents) (hnot : new ∉ db.agents) (hinv : Inv db) :
    new ∈ (on_rename_agent db d).1.agents ∧
    old ∉ (on_rename_agent db d).1.agents ∧
    (∃ r ∈ db.status, r.agent_name = old ∧
      { r with agent_name := new } ∈ (on_rename_agent db d).1.status) ∧
    (∀ r ∈ (on_rename_agent db d).1.status, r.agent_name ≠ old) ∧
    (∃ r ∈ db.assignment, r.agent_name = old ∧
      { r with agent_name := new } ∈ (on_rename_agent db d).1.assignment) ∧
    (∀ r ∈ (on_rename_agent db d).1.assignment, r.agent_name ≠ old) ∧
    (on_rename_agent db d).2 = [Event.agent_renamed old new] := by
  rw [on_rename_agent_success db d old new hold hnew h1 h2 h3 hmem hnot]
  obtain ⟨hnd, hs, hasg, hks, hka⟩ := hinv
  refine ⟨?_, ?_, ?_, ?_, ?_, ?_, rfl⟩
  · exact List.mem_map.mpr ⟨old, hmem, by simp⟩
  · intro hcon
    obtain ⟨a0, ha0, hfa⟩ := List.mem_map.mp hcon
    by_cases h0 : a0 = old
    · rw [if_pos (by simpa using h0)] at hfa
      exact h3 hfa.symm
    · rw [if_neg (by simpa using h0)] at hfa
      exact h0 hfa
  · have hpos : 0 < keyCount StatusRow.agent_name old db.status := by
      rw [hs old hmem]
      exact Nat.one_pos
    obtain ⟨r, hr, hkr⟩ := keyCount_pos.mp hpos
    exact ⟨r, hr, hkr, updWhere_mem_of_mem hr hkr⟩
  · intro r hr
    obtain ⟨r0, hr0, hr0'⟩ := List.mem_map.mp hr
    by_cases h0 : r0.agent_name = old
    · rw [if_pos (by simpa using h0)] at hr0'
      rw [← hr0']
      exact fun hh => h3 hh.symm
    · rw [if_neg (by simpa using h0)] at hr0'
      rw [← hr0']
      exact h0
  · have hpos : 0 < keyCount AssignRow.agent_name old db.assignment := by
      rw [hasg old hmem]
      exact Nat.one_pos
    obtain ⟨r, hr, hkr⟩ := keyCount_pos.mp hpos
    exact ⟨r, hr, hkr, updWhere_mem_of_mem hr hkr⟩
  · intro r hr
    obtain ⟨r0, hr0, hr0'⟩ := List.mem_map.mp hr
    by_cases h0 : r0.agent_name = old
    · rw [if_pos (by simpa using h0)] at hr0'
      rw [← hr0']
      exact fun hh => h3 hh.symm
    · rw [if_neg (by simpa using h0)] at hr0'
      rw [← hr0']
      exact h0

/-- C3, witness at a concrete input: rename Victor to Vic on the seeded DB. -/
theorem C3_rename_rekeys_all_witness :
    pyStrip ((some "Victor").getD "") = "Victor" ∧ pyStrip ((some "Vic").getD "") = "Vic" ∧
    "Victor" ≠ "" ∧ "Vic" ≠ "" ∧ "Victor" ≠ "Vic" ∧
    "Victor" ∈ seedDB.agents ∧ "Vic" ∉ seedDB.agents ∧ Inv seedDB ∧
    ("Vic" ∈ (on_rename_agent seedDB ⟨some "Victor", some "Vic"⟩).1.agents ∧
     "Victor" ∉ (on_rename_agent seedDB ⟨some "Victor", some "Vic"⟩).1.agents ∧
     (∃ r ∈ seedDB.status, r.agent_name = "Victor" ∧
       { r with agent_name := "Vic" } ∈ (on_rename_agent seedDB ⟨some "Victor", some "Vic"⟩).1.status) ∧
     (∀ r ∈ (on_rename_agent seedDB ⟨some "Victor", some "Vic"⟩).1.status, r.agent_name ≠ "Victor") ∧
     (∃ r ∈ seedDB.assignment, r.agent_name = "Victor" ∧
       { r with agent_name := "Vic" } ∈ (on_rename_agent seedDB ⟨some "Victor", some "Vic"⟩).1.assignment) ∧
     (∀ r ∈ (on_rename_agent seedDB ⟨some "Victor", some "Vic"⟩).1.assignment, r.agent_name ≠ "Victor") ∧
     (on_rename_agent seedDB ⟨some "Victor", some "Vic"⟩).2 = [Event.agent_renamed "Victor" "Vic"]) :=
  ⟨by decide, by decide, by decide, by decide, by decide, by decide, by decide,
   by unfold Inv; decide,
   C3_rename_rekeys_all seedDB ⟨some "Victor", some "Vic"⟩ "Victor" "Vic"
     (by decide) (by decide) (by decide) (by decide) (by decide) (by decide) (by decide)
     (by unfold Inv; decide)⟩

/-! ## Claim C5 -/

/-- C5: on a well-formed database, each of the two lists returned by
`fetch_state` lists the agents in ascending name order — the projected name
sequences both equal `sortNames db.agents`, hence are sorted and of equal
length — with exactly one entry per existing agent and none for anybody
else. -/
theorem C5_fetch_state_shape (db : DB) (hinv : Inv db) :
    (fetch_state db).1.map StatusOut.name = sortNames db.agents ∧
    (fetch_state db).2.map AssignOut.name = sortNames db.agents ∧
    List.Sorted (· ≤ ·) ((fetch_state db).1.map StatusOut.name) ∧
    List.Sorted (· ≤ ·) ((fetch_state db).2.map AssignOut.name) ∧
    (fetch_state db).1.length = (fetch_state db).2.length ∧
    (∀ a, ((fetch_state db).1.map StatusOut.name).count a = if a ∈ db.agents then 1 else 0) ∧
    (∀ a, ((fetch_state db).2.map AssignOut.name).count a = if a ∈ db.agents then 1 else 0) := by
  obtain ⟨hnd, hs, hasg, hks, hka⟩ := hinv
  have hperm : (sortNames db.agents).Perm db.agents := List.perm_insertionSort _ _
  have hst : (fetch_state db).1.map StatusOut.name = sortNames db.agents := by
    apply map_flatMap_singleton
    intro a ha
    have hamem : a ∈ db.agents := hperm.mem_iff.mp ha
    have hlen : (db.status.filter (fun r => r.agent_name == a)).length = 1 := by
      rw [← List.countP_eq_length_filter]
      exact hs a hamem
    obtain ⟨r, hr⟩ := List.length_eq_one.mp hlen
    rw [List.map_map, hr]
    rfl
  have hasgmap : (fetch_state db).2.map AssignOut.name = sortNames db.agents := by
    apply map_flatMap_singleton
    intro a ha
    have hamem : a ∈ db.agents := hperm.mem_iff.mp ha
    have hlen : (db.assignment.filter (fun r => r.agent_name == a)).length = 1 := by
      rw [← List.countP_eq_length_filter]
      exact hasg a hamem
    obtain ⟨r, hr⟩ := List.length_eq_one.mp hlen
    rw [List.map_map, hr]
    rfl
  have hsorted : List.Sorted (· ≤ ·) (sortNames db.agents) :=
    List.sorted_insertionSort _ _
  have hcount : ∀ a, (sortNames db.agents).count a = if a ∈ db.agents then 1 else 0 := by
    intro a
    rw [hperm.count_eq]
    by_cases ha : a ∈ db.agents
    · rw [if_pos ha]
      exact List.count_eq_one_of_mem hnd ha
    · rw [if_neg ha]
      exact List.count_eq_zero.mpr ha
  refine ⟨hst, hasgmap, hst ▸ hsorted, hasgmap ▸ hsorted, ?_, ?_, ?_⟩
  · have l1 : (fetch_state db).1.length = (sortNames db.agents).length := by
      rw [← hst, List.length_map]
    have l2 : (fetch_state db).2.length = (sortNames db.agents).length := by
      rw [← hasgmap, List.length_map]
    rw [l1, l2]
  · intro a
    rw [hst]
    exact hcount a
  · intro a
    rw [hasgmap]
    exact hcount a

/-- C5, witness at a concrete input: the seeded database. -/
theorem C5_fetch_state_shape_witness :
    Inv seedDB ∧
    ((fetch_state seedDB).1.map StatusOut.name = sortNames seedDB.agents ∧
     (fetch_state seedDB).2.map AssignOut.name = sortNames seedDB.agents ∧
     List.Sorted (· ≤ ·) ((fetch_state seedDB).1.map StatusOut.name) ∧
     List.Sorted (· ≤ ·) ((fetch_state seedDB).2.map AssignOut.name) ∧
     (fetch_state seedDB).1.length = (fetch_state seedDB).2.length ∧
     (∀ a, ((fetch_state seedDB).1.map StatusOut.name).count a = if a ∈ seedDB.agents then 1 else 0) ∧
     (∀ a, ((fetch_state seedDB).2.map AssignOut.name).count a = if a ∈ seedDB.agents then 1 else 0)) :=
  ⟨by unfold Inv; decide, C5_fetch_state_shape seedDB (by unfold Inv; decide)⟩

/-! ## Creation of a fresh agent by an edit -/

theorem filter_key_nil {α : Type} {key : α → String} {a : String} {l : List α}
    (h : ∀ r ∈ l, key r ≠ a) : l.filter (fun r => key r == a) = [] := by
  rw [List.filter_eq_nil_iff]
  intro r hr
  simpa using h r hr

/-- An `update_cell` edit naming an unknown agent creates exactly one agent
row, one status row and one assignment row for it — the satellite rows are
the zero-valued defaults with the requested edit applied on top. -/
theorem on_update_cell_creates (db : DB) (d : UpdatePayload) (hinv : Inv db) (hv : ValidEdit d)
    (ha : pyStrip (d.agent.getD "") ∉ db.agents) :
    (on_update_cell db d).1.agents = db.agents ++ [pyStrip (d.agent.getD "")] ∧
    (on_update_cell db d).1.status.filter (fun r => r.agent_name == pyStrip (d.agent.getD "")) =
      [newStatusRow (pyStrip (d.agent.getD "")) (d.table.getD "") (d.field.getD "") d.value] ∧
    (on_update_cell db d).1.assignment.filter (fun r => r.agent_name == pyStrip (d.agent.getD "")) =
      [newAssignRow (pyStrip (d.agent.getD "")) (d.table.getD "") (d.field.getD "") d.value] := by
  have hks := hinv.2.2.2.1
  have hka := hinv.2.2.2.2
  have hsnil : db.status.filter (fun r => r.agent_name == pyStrip (d.agent.getD "")) = [] :=
    filter_key_nil (fun r hr hra => ha (hra ▸ hks r hr))
  have hanil : db.assignment.filter (fun r => r.agent_name == pyStrip (d.agent.getD "")) = [] :=
    filter_key_nil (fun r hr hra => ha (hra ▸ hka r hr))
  have hfz : [zeroStatus (pyStrip (d.agent.getD ""))].filter
      (fun r => r.agent_name == pyStrip (d.agent.getD "")) =
      [zeroStatus (pyStrip (d.agent.getD ""))] := by
    simp [zeroStatus]
  have hfza : [zeroAssign (pyStrip (d.agent.getD ""))].filter
      (fun r => r.agent_name == pyStrip (d.agent.getD "")) =
      [zeroAssign (pyStrip (d.agent.getD ""))] := by
    simp [zeroAssign]
  rw [on_update_cell_valid db d hv, ensureRows_of_not_mem hinv ha]
  obtain ⟨hne, hcase⟩ := hv
  rcases hcase with ⟨ht, hfin⟩ | ⟨ht, hfin⟩
  · cases hfd : d.field with
    | none =>
      rw [hfd] at hfin
      simp [inFields] at hfin
    | some fs =>
      rw [hfd] at hfin
      have hfs : fs = "backlog" ∨ fs = "active" ∨ fs = "priority" := by
        simpa [inFields, ALLOWED_STATUS_FIELDS] using hfin
      simp only [ht, hfd, Option.getD_some]
      by_cases hfp : fs = "priority"
      · rw [hfp]
        simp only [writeCell, if_true]
        refine ⟨trivial, ?_, ?_⟩
        · rw [filter_updWhere StatusRow.agent_name (pyStrip (d.agent.getD ""))
            (fun r => { r with priority := normPriority d.value }) (fun r => rfl)
            (db.status ++ [zeroStatus (pyStrip (d.agent.getD ""))]),
            List.filter_append, hsnil, hfz]
          simp [newStatusRow, zeroStatus]
        · rw [List.filter_append, hanil, hfza]
          simp [newAssignRow, zeroAssign]
      · simp only [writeCell, if_true]
        rw [if_neg hfp]
        refine ⟨rfl, ?_, ?_⟩
        · rw [filter_updWhere StatusRow.agent_name (pyStrip (d.agent.getD ""))
            (setStatusField fs (normNum d.value)) (setStatusField_key fs (normNum d.value))
            (db.status ++ [zeroStatus (pyStrip (d.agent.getD ""))]),
            List.filter_append, hsnil, hfz]
          simp [newStatusRow, hfp]
        · rw [List.filter_append, hanil, hfza]
          simp [newAssignRow, hfp]
  · cases hfd : d.field with
    | none =>
      rw [hfd] at hfin
      simp [inFields] at hfin
    | some fs =>
      rw [hfd] at hfin
      have hfs : fs = "easy_to_handle" ∨ fs = "investigation" ∨ fs = "autoclose_tickets" := by
        simpa [inFields, ALLOWED_ASSIGN_FIELDS] using hfin
      have hfp : fs ≠ "priority" := by
        rcases hfs with h | h | h <;> rw [h] <;> decide
      simp only [ht, hfd, Option.getD_some]
      simp only [writeCell, if_true, if_false]
      rw [if_neg hfp, if_neg (by decide : ¬("assignment" : String) = "status")]
      refine ⟨rfl, ?_, ?_⟩
      · rw [List.filter_append, hsnil, hfz]
        simp [newStatusRow, hfp, (by decide : ¬("assignment" : String) = "status")]
      · rw [filter_updWhere AssignRow.agent_name (pyStrip (d.agent.getD ""))
          (setAssignField fs (normNum d.value)) (setAssignField_key fs (normNum d.value))
          (db.assignment ++ [zeroAssign (pyStrip (d.agent.getD ""))]),
          List.filter_append, hanil, hfza]
        simp [newAssignRow, hfp]

/-! ## Claim C4 -/

/-- C4: the 1:1:1 invariant — unique agent names, exactly one status row and
one assignment row per agent, no orphan satellite rows — is preserved by
schema initialization, by every `update_cell` and by every `rename_agent`;
and a valid edit naming an unknown agent creates, inside the one transaction,
exactly one agent row plus one zero-valued status row and one zero-valued
assignment row for it (with the requested field edit applied on top). -/
theorem C4_one_to_one_invariant (db : DB) (hinv : Inv db) :
    Inv (init_db db) ∧
    (∀ d : UpdatePayload, Inv (on_update_cell db d).1) ∧
    (∀ d : RenamePayload, Inv (on_rename_agent db d).1) ∧
    (∀ d : UpdatePayload, ValidEdit d → pyStrip (d.agent.getD "") ∉ db.agents →
      (on_update_cell db d).1.agents = db.agents ++ [pyStrip (d.agent.getD "")] ∧
      (on_update_cell db d).1.status.filter (fun r => r.agent_name == pyStrip (d.agent.getD "")) =
        [newStatusRow (pyStrip (d.agent.getD "")) (d.table.getD "") (d.field.getD "") d.value] ∧
      (on_update_cell db d).1.assignment.filter (fun r => r.agent_name == pyStrip (d.agent.getD "")) =
        [newAssignRow (pyStrip (d.agent.getD "")) (d.table.getD "") (d.field.getD "") d.value]) := by
  refine ⟨Inv_init_db hinv, fun d => Inv_on_update_cell d hinv,
    fun d => Inv_on_rename_agent d hinv, fun d hv ha => on_update_cell_creates db d hinv hv ha⟩

/-- C4, witness at a concrete input: the seeded database and an edit creating
the unknown agent `"Zed"`. -/
theorem C4_one_to_one_invariant_witness :
    Inv seedDB ∧
    (Inv (init_db seedDB) ∧
     (∀ d : UpdatePayload, Inv (on_update_cell seedDB d).1) ∧
     (∀ d : RenamePayload, Inv (on_rename_agent seedDB d).1) ∧
     (∀ d : UpdatePayload, ValidEdit d → pyStrip (d.agent.getD "") ∉ seedDB.agents →
       (on_update_cell seedDB d).1.agents = seedDB.agents ++ [pyStrip (d.agent.getD "")] ∧
       (on_update_cell seedDB d).1.status.filter (fun r => r.agent_name == pyStrip (d.agent.getD "")) =
         [newStatusRow (pyStrip (d.agent.getD "")) (d.table.getD "") (d.field.getD "") d.value] ∧
       (on_update_cell seedDB d).1.assignment.filter (fun r => r.agent_name == pyStrip (d.agent.getD "")) =
         [newAssignRow (pyStrip (d.agent.getD "")) (d.table.getD "") (d.field.getD "") d.value])) :=
  ⟨by unfold Inv; decide, C4_one_to_one_invariant seedDB (by unfold Inv; decide)⟩

/-! ## Trimmed keys are preserved by every operation -/

theorem TrimmedKeys_ensureRows (a : String) {db : DB} (h : TrimmedKeys db)
    (ha : noSurroundWS a = true) : TrimmedKeys (ensureRows a db) := by
  obtain ⟨h1, h2, h3⟩ := h
  simp only [ensureRows, TrimmedKeys]
  refine ⟨?_, ?_, ?_⟩
  · split_ifs with hc
    · intro x hx
      rcases List.mem_append.mp hx with hx | hx
      · exact h1 x hx
      · rw [List.mem_singleton.mp hx]
        exact ha
    · exact h1
  · split_ifs with hc
    · intro r hr
      rcases List.mem_append.mp hr with hr | hr
      · exact h2 r hr
      · rw [List.mem_singleton.mp hr]
        exact ha
    · exact h2
  · split_ifs with hc
    · intro r hr
      rcases List.mem_append.mp hr with hr | hr
      · exact h3 r hr
      · rw [List.mem_singleton.mp hr]
        exact ha
    · exact h3

theorem TrimmedKeys_writeCell (t a f : String) (v : Option String) {db : DB}
    (h : TrimmedKeys db) : TrimmedKeys (writeCell t a f v db) := by
  obtain ⟨h1, h2, h3⟩ := h
  unfold writeCell
  split_ifs
  · refine ⟨h1, ?_, h3⟩
    intro r hr
    obtain ⟨r0, hr0, hkey⟩ := mem_updWhere_key_mem hr (fun r => rfl)
    rw [hkey]
    exact h2 r0 hr0
  · refine ⟨h1, ?_, h3⟩
    intro r hr
    obtain ⟨r0, hr0, hkey⟩ := mem_updWhere_key_mem hr (setStatusField_key f (normNum v))
    rw [hkey]
    exact h2 r0 hr0
  · refine ⟨h1, h2, ?_⟩
    intro r hr
    obtain ⟨r0, hr0, hkey⟩ := mem_updWhere_key_mem hr (setAssignField_key f (normNum v))
    rw [hkey]
    exact h3 r0 hr0

theorem TrimmedKeys_on_update_cell (db : DB) (d : UpdatePayload) (h : TrimmedKeys db) :
    TrimmedKeys (on_update_cell db d).1 := by
  simp only [on_update_cell]
  split_ifs <;> try exact h
  exact TrimmedKeys_writeCell _ _ _ _
    (TrimmedKeys_ensureRows _ h (noSurroundWS_pyStrip _))

theorem TrimmedKeys_on_rename_agent (db : DB) (d : RenamePayload) (h : TrimmedKeys db) :
    TrimmedKeys (on_rename_agent db d).1 := by
  obtain ⟨h1, h2, h3⟩ := h
  simp only [on_rename_agent]
  split_ifs <;> try exact ⟨h1, h2, h3⟩
  have hnew : noSurroundWS (pyStrip (d.new_name.getD "")) = true := noSurroundWS_pyStrip _
  refine ⟨?_, ?_, ?_⟩
  · intro x hx
    obtain ⟨a0, ha0, hfa⟩ := List.mem_map.mp hx
    by_cases h0 : a0 = pyStrip (d.old_name.getD "")
    · rw [if_pos (by simpa using h0)] at hfa
      rw [← hfa]
      exact hnew
    · rw [if_neg (by simpa using h0)] at hfa
      rw [← hfa]
      exact h1 a0 ha0
  · intro r hr
    obtain ⟨r0, hr0, hr0'⟩ := List.mem_map.mp hr
    by_cases h0 : r0.agent_name = pyStrip (d.old_name.getD "")
    · rw [if_pos (by simpa using h0)] at hr0'
      rw [← hr0']
      exact hnew
    · rw [if_neg (by simpa using h0)] at hr0'
      rw [← hr0']
      exact h2 r0 hr0
  · intro r hr
    obtain ⟨r0, hr0, hr0'⟩ := List.mem_map.mp hr
    by_cases h0 : r0.agent_name = pyStrip (d.old_name.getD "")
    · rw [if_pos (by simpa using h0)] at hr0'
      rw [← hr0']
      exact hnew
    · rw [if_neg (by simpa using h0)] at hr0'
      rw [← hr0']
      exact h3 r0 hr0

theorem TrimmedKeys_init_db (db : DB) (h : TrimmedKeys db) : TrimmedKeys (init_db db) := by
  unfold init_db
  split_ifs
  · exact ⟨by decide, by decide, by decide⟩
  · exact h

/-! ## Claim C10 -/

/-- C10: agent names taken from an `update_cell` or `rename_agent` payload are
stripped of surrounding whitespace before validation and storage. Two payload
names that differ only by surrounding whitespace have equal strips
(first conjunct), strip-equal payloads drive both handlers to identical
results (second and third conjuncts), and starting from a database whose
stored keys carry no surrounding whitespace, every operation preserves that
property (remaining conjuncts). -/
theorem C10_strip_whitespace (db : DB) (h : TrimmedKeys db) :
    (∀ (core w₁ w₂ : List Char), (∀ c ∈ w₁, c.isWhitespace = true) →
      (∀ c ∈ w₂, c.isWhitespace = true) →
      pyStrip ⟨w₁ ++ (core ++ w₂)⟩ = pyStrip ⟨core⟩) ∧
    (∀ d d' : UpdatePayload, pyStrip (d.agent.getD "") = pyStrip (d'.agent.getD "") →
      d.table = d'.table → d.field = d'.field → d.value = d'.value →
      on_update_cell db d = on_update_cell db d') ∧
    (∀ d d' : RenamePayload, pyStrip (d.old_name.getD "") = pyStrip (d'.old_name.getD "") →
      pyStrip (d.new_name.getD "") = pyStrip (d'.new_name.getD "") →
      on_rename_agent db d = on_rename_agent db d') ∧
    (∀ d : UpdatePayload, TrimmedKeys (on_update_cell db d).1) ∧
    (∀ d : RenamePayload, TrimmedKeys (on_rename_agent db d).1) ∧
    TrimmedKeys (init_db db) := by
  refine ⟨fun core w₁ w₂ hw1 hw2 => pyStrip_pad w₁ w₂ core hw1 hw2, ?_, ?_,
    fun d => TrimmedKeys_on_update_cell db d h,
    fun d => TrimmedKeys_on_rename_agent db d h,
    TrimmedKeys_init_db db h⟩
  · intro d d' e1 e2 e3 e4
    unfold on_update_cell
    rw [e1, e2, e3, e4]
  · intro d d' e1 e2
    unfold on_rename_agent
    rw [e1, e2]

/-- C10, witness at a concrete input: the seeded database. -/
theorem C10_strip_whitespace_witness :
    TrimmedKeys seedDB ∧
    ((∀ (core w₁ w₂ : List Char), (∀ c ∈ w₁, c.isWhitespace = true) →
       (∀ c ∈ w₂, c.isWhitespace = true) →
       pyStrip ⟨w₁ ++ (core ++ w₂)⟩ = pyStrip ⟨core⟩) ∧
     (∀ d d' : UpdatePayload, pyStrip (d.agent.getD "") = pyStrip (d'.agent.getD "") →
       d.table = d'.table → d.field = d'.field → d.value = d'.value →
       on_update_cell seedDB d = on_update_cell seedDB d') ∧
     (∀ d d' : RenamePayload, pyStrip (d.old_name.getD "") = pyStrip (d'.old_name.getD "") →
       pyStrip (d.new_name.getD "") = pyStrip (d'.new_name.getD "") →
       on_rename_agent seedDB d = on_rename_agent seedDB d') ∧
     (∀ d : UpdatePayload, TrimmedKeys (on_update_cell seedDB d).1) ∧
     (∀ d : RenamePayload, TrimmedKeys (on_rename_agent seedDB d).1) ∧
     TrimmedKeys (init_db seedDB)) :=
  ⟨by unfold TrimmedKeys; decide, C10_strip_whitespace seedDB (by unfold TrimmedKeys; decide)⟩

end QueueManager
